import Mathlib

/-!
Shallow embedding of the astrii image-to-ASCII rendering pipeline.

The numeric functions of `RenderUtils` (clamp, luminance, contrast/brightness,
charset mapping, Gaussian kernels, convolution, Sobel, non-maximum suppression)
are translated here as Lean functions; JavaScript numbers are modelled as
elements of a linear ordered field (instantiated at `ℚ` for executable claims
and at `ℝ` where the source uses transcendental functions).  The two web
workers (`asciiConfigWorker` and the ASCII frame worker) are modelled as pure
functions from their request to the ordered list of messages they post.
-/

namespace Astrii

/-- `clamp(value, min, max)` from RenderUtils: `Math.max(min, Math.min(max, value))`. -/
def clamp {α : Type} [LinearOrder α] (value lo hi : α) : α :=
  max lo (min hi value)

/-- `interpolate(start, end, t)` from RenderUtils: `start + t * (end - start)`. -/
def interpolate {α : Type} [Ring α] (start stop t : α) : α :=
  start + t * (stop - start)

/-- `applyContrastBrightness(lum, contrast, brightness)` from RenderUtils:
`factor = (259 * (contrast + 255)) / (255 * (259 - contrast))`, result
`clamp(factor * (lum - 128) + 128 + brightness, 0, 255)`. -/
def applyContrastBrightness {α : Type} [LinearOrderedField α]
    (lum contrast brightness : α) : α :=
  let factor := (259 * (contrast + 255)) / (255 * (259 - contrast))
  clamp (factor * (lum - 128) + 128 + brightness) 0 255

/-- `mapToChar(lum, charset)` from RenderUtils:
`index = Math.floor((lum / 255) * (charset.length - 1))`, then
`charset[clamp(index, 0, charset.length - 1)]`.  Indexing a JS array out of
range yields `undefined`; with a non-empty charset the clamped index is always
in range, and we use a default character for the (unreachable) empty case. -/
def mapToChar {α : Type} [LinearOrderedField α] [FloorRing α]
    (lum : α) (charset : List Char) : Char :=
  let index : ℤ := Int.floor ((lum / 255) * ((charset.length : α) - 1))
  charset.getD (clamp index 0 ((charset.length : ℤ) - 1)).toNat ' '

section ClampLemmas

variable {α : Type} [LinearOrder α]

theorem le_clamp (value lo hi : α) : lo ≤ clamp value lo hi :=
  le_max_left _ _

theorem clamp_le {value lo hi : α} (h : lo ≤ hi) : clamp value lo hi ≤ hi :=
  max_le h (min_le_left _ _)

theorem clamp_eq_of_le {value lo hi : α} (h1 : lo ≤ value) (h2 : value ≤ hi) :
    clamp value lo hi = value := by
  unfold clamp
  rw [min_eq_right h2, max_eq_right h1]

theorem clamp_eq_lo_of_le {value lo hi : α} (h1 : value ≤ lo) (h2 : lo ≤ hi) :
    clamp value lo hi = lo := by
  unfold clamp
  exact max_eq_left (le_trans (min_le_right _ _) h1)

theorem clamp_eq_hi_of_le {value lo hi : α} (h1 : hi ≤ value) (h2 : lo ≤ hi) :
    clamp value lo hi = hi := by
  unfold clamp
  rw [min_eq_left h1, max_eq_right h2]

end ClampLemmas

section MapToCharLemmas

variable {α : Type} [LinearOrderedField α] [FloorRing α]

/-- Zeta-reduced form of `mapToChar`. -/
theorem mapToChar_def (lum : α) (charset : List Char) :
    mapToChar lum charset =
      charset.getD
        (clamp (Int.floor ((lum / 255) * ((charset.length : α) - 1)))
          0 ((charset.length : ℤ) - 1)).toNat ' ' := rfl

/-- `getD` at position `length - 1` is the last element of a non-empty list. -/
theorem getD_length_sub_one {l : List Char} (h : l ≠ []) :
    l.getD (l.length - 1) ' ' = l.getLastD ' ' := by
  induction l with
  | nil => exact absurd rfl h
  | cons a t ih =>
    cases t with
    | nil => rfl
    | cons b t2 =>
      have hne : (b :: t2) ≠ ([] : List Char) := by simp
      have h1 : (a :: b :: t2).getD ((a :: b :: t2).length - 1) ' ' =
          (b :: t2).getD ((b :: t2).length - 1) ' ' := by
        simp [List.getD_cons_succ]
      rw [h1, ih hne]
      cases t2 <;> simp [List.getLastD]

/-- The clamped index used by `mapToChar` is always a valid position of a
non-empty charset, so the mapped character is a member of the charset. -/
theorem mapToChar_mem (lum : α) {charset : List Char} (h : charset ≠ []) :
    mapToChar lum charset ∈ charset := by
  rw [mapToChar_def]
  have hlen : 1 ≤ charset.length := List.length_pos.mpr h
  set index : ℤ := Int.floor ((lum / 255) * ((charset.length : α) - 1)) with hidx
  have h0 : (0 : ℤ) ≤ (charset.length : ℤ) - 1 := by
    omega
  have hlo : (0 : ℤ) ≤ clamp index 0 ((charset.length : ℤ) - 1) := le_clamp _ _ _
  have hhi : clamp index 0 ((charset.length : ℤ) - 1) ≤ (charset.length : ℤ) - 1 :=
    clamp_le h0
  have hlt : (clamp index 0 ((charset.length : ℤ) - 1)).toNat < charset.length := by
    omega
  rw [List.getD_eq_getElem _ _ hlt]
  exact List.getElem_mem hlt

/-- For `lum ≤ 0` the floor index is nonpositive, so the clamp sends it to 0
and `mapToChar` returns the charset's first character. -/
theorem mapToChar_of_nonpos {lum : α} (hlum : lum ≤ 0)
    {charset : List Char} (h : charset ≠ []) :
    mapToChar lum charset = charset.headD ' ' := by
  rw [mapToChar_def]
  have hlen : 1 ≤ charset.length := List.length_pos.mpr h
  have hprod : (lum / 255) * ((charset.length : α) - 1) ≤ 0 := by
    apply mul_nonpos_of_nonpos_of_nonneg
    · exact div_nonpos_of_nonpos_of_nonneg hlum (by norm_num)
    · have : (1 : α) ≤ (charset.length : α) := by exact_mod_cast hlen
      linarith
  have hfloor : Int.floor ((lum / 255) * ((charset.length : α) - 1)) ≤ 0 :=
    Int.floor_nonpos hprod
  have h0 : (0 : ℤ) ≤ (charset.length : ℤ) - 1 := by omega
  rw [clamp_eq_lo_of_le hfloor h0]
  cases charset with
  | nil => exact absurd rfl h
  | cons c cs => rfl

/-- For `lum ≥ 255` the floor index is at least `length - 1`, so the clamp
sends it to `length - 1` and `mapToChar` returns the charset's last
character. -/
theorem mapToChar_of_ge {lum : α} (hlum : (255 : α) ≤ lum)
    {charset : List Char} (h : charset ≠ []) :
    mapToChar lum charset = charset.getLastD ' ' := by
  rw [mapToChar_def]
  have hlen : 1 ≤ charset.length := List.length_pos.mpr h
  have hcast : (1 : α) ≤ (charset.length : α) := by exact_mod_cast hlen
  have hone : (1 : α) ≤ lum / 255 := by
    rw [le_div_iff₀ (by norm_num : (0 : α) < 255)]
    linarith
  have hprod : ((charset.length : α) - 1) ≤ (lum / 255) * ((charset.length : α) - 1) := by
    nlinarith
  have hfloor : (charset.length : ℤ) - 1 ≤
      Int.floor ((lum / 255) * ((charset.length : α) - 1)) := by
    rw [Int.le_floor]
    push_cast
    exact hprod
  have h0 : (0 : ℤ) ≤ (charset.length : ℤ) - 1 := by omega
  rw [clamp_eq_hi_of_le hfloor h0]
  have htn : ((charset.length : ℤ) - 1).toNat = charset.length - 1 := by omega
  rw [htn, getD_length_sub_one h]

end MapToCharLemmas

/-- C1: for every luminance in [0,255] and non-empty charset, `mapToChar`
returns a member of the charset, computed as `charset` indexed at the clamped
floor index; `mapToChar 0` is the first character and `mapToChar 255` the
last. -/
theorem C1_mapToChar_range (charset : List Char) (h : charset ≠ []) :
    (∀ lum : ℚ, 0 ≤ lum → lum ≤ 255 → mapToChar lum charset ∈ charset) ∧
    (∀ lum : ℚ, mapToChar lum charset =
      charset.getD
        (clamp (Int.floor ((lum / 255) * ((charset.length : ℚ) - 1)))
          0 ((charset.length : ℤ) - 1)).toNat ' ') ∧
    mapToChar (0 : ℚ) charset = charset.headD ' ' ∧
    mapToChar (255 : ℚ) charset = charset.getLastD ' ' := by
  refine ⟨fun lum _ _ => mapToChar_mem lum h, fun lum => rfl, ?_, ?_⟩
  · exact mapToChar_of_nonpos le_rfl h
  · exact mapToChar_of_ge le_rfl h

/-- Witness for C1 at the concrete charset `['a', 'b', 'c']` and luminances
0, 128 and 255. -/
theorem C1_mapToChar_range_witness :
    (['a', 'b', 'c'] ≠ ([] : List Char)) ∧
    mapToChar (128 : ℚ) ['a', 'b', 'c'] ∈ ['a', 'b', 'c'] ∧
    mapToChar (0 : ℚ) ['a', 'b', 'c'] = 'a' ∧
    mapToChar (255 : ℚ) ['a', 'b', 'c'] = 'c' := by
  refine ⟨by decide, (C1_mapToChar_range ['a', 'b', 'c'] (by decide)).1 128
    (by norm_num) (by norm_num), ?_, ?_⟩
  · exact ((C1_mapToChar_range ['a', 'b', 'c'] (by decide)).2.2.1).trans (by decide)
  · exact ((C1_mapToChar_range ['a', 'b', 'c'] (by decide)).2.2.2).trans (by decide)

/-- C10: `mapToChar` is total over all rational luminances: the clamp keeps the
index inside `[0, length-1]`, so the result is always a charset member; any
negative luminance yields the first character and any luminance above 255 the
last. -/
theorem C10_mapToChar_total (charset : List Char) (h : charset ≠ []) :
    (∀ lum : ℚ, mapToChar lum charset ∈ charset) ∧
    (∀ lum : ℚ, lum < 0 → mapToChar lum charset = charset.headD ' ') ∧
    (∀ lum : ℚ, 255 < lum → mapToChar lum charset = charset.getLastD ' ') := by
  refine ⟨fun lum => mapToChar_mem lum h, fun lum hlum => ?_, fun lum hlum => ?_⟩
  · exact mapToChar_of_nonpos hlum.le h
  · exact mapToChar_of_ge hlum.le h

/-- Witness for C10 at the concrete charset `['a', 'b', 'c']` with the
out-of-range luminances -5 and 300. -/
theorem C10_mapToChar_total_witness :
    (['a', 'b', 'c'] ≠ ([] : List Char)) ∧
    mapToChar (-5 : ℚ) ['a', 'b', 'c'] ∈ ['a', 'b', 'c'] ∧
    mapToChar (-5 : ℚ) ['a', 'b', 'c'] = 'a' ∧
    mapToChar (300 : ℚ) ['a', 'b', 'c'] = 'c' := by
  refine ⟨by decide, (C10_mapToChar_total ['a', 'b', 'c'] (by decide)).1 (-5),
    ?_, ?_⟩
  · exact ((C10_mapToChar_total ['a', 'b', 'c'] (by decide)).2.1 (-5)
      (by norm_num)).trans (by decide)
  · exact ((C10_mapToChar_total ['a', 'b', 'c'] (by decide)).2.2 300
      (by norm_num)).trans (by decide)

/-- C6: for every luminance, contrast in (-259,259) and brightness, the result
of `applyContrastBrightness` lies in [0,255], and it is computed as the clamp
of `factor * (lum - 128) + 128 + brightness` with
`factor = 259 * (contrast + 255) / (255 * (259 - contrast))`. -/
theorem C6_applyContrastBrightness_range (lum contrast brightness : ℚ)
    (h1 : -259 < contrast) (h2 : contrast < 259) :
    0 ≤ applyContrastBrightness lum contrast brightness ∧
    applyContrastBrightness lum contrast brightness ≤ 255 ∧
    applyContrastBrightness lum contrast brightness =
      clamp ((259 * (contrast + 255)) / (255 * (259 - contrast)) * (lum - 128)
        + 128 + brightness) 0 255 := by
  refine ⟨le_clamp _ _ _, clamp_le (by norm_num), rfl⟩

/-- Witness for C6 at luminance 200, contrast 50, brightness -30. -/
theorem C6_applyContrastBrightness_range_witness :
    (-259 : ℚ) < 50 ∧ (50 : ℚ) < 259 ∧
    0 ≤ applyContrastBrightness (200 : ℚ) 50 (-30) ∧
    applyContrastBrightness (200 : ℚ) 50 (-30) ≤ 255 := by
  refine ⟨by norm_num, by norm_num, ?_, ?_⟩
  · exact (C6_applyContrastBrightness_range 200 50 (-30) (by norm_num)
      (by norm_num)).1
  · exact (C6_applyContrastBrightness_range 200 50 (-30) (by norm_num)
      (by norm_num)).2.1

/-- One zero-padded sample of `convolve2D`: the JS expression
`yy >= 0 && yy < height && xx >= 0 && xx < width ? img[yy][xx] : 0`. -/
def convSample (img : List (List ℚ)) (height width : ℕ) (yy xx : ℤ) : ℚ :=
  if 0 ≤ yy ∧ yy < (height : ℤ) ∧ 0 ≤ xx ∧ xx < (width : ℤ) then
    (img.getD yy.toNat []).getD xx.toNat 0
  else 0

/-- The inner double loop of `convolve2D`:
`sum += pixel * kernel[ky][kx]` over `ky, kx` in `[0, kernelSize)`, where
`pixel` samples `img` at `(y + ky - half, x + kx - half)` with zero padding. -/
def convCell (img kernel : List (List ℚ)) (height width kernelSize half : ℕ)
    (y x : ℕ) : ℚ :=
  ((List.range kernelSize).map fun (ky : ℕ) =>
    ((List.range kernelSize).map fun (kx : ℕ) =>
      convSample img height width ((y : ℤ) + (ky : ℤ) - (half : ℤ))
          ((x : ℤ) + (kx : ℤ) - (half : ℤ)) *
        ((kernel.getD ky []).getD kx 0)).sum).sum

/-- `convolve2D(img, kernel)` from RenderUtils: zero-padded 2D convolution.
`height = img.length`, `width = img[0].length`, `half = floor(kernelSize/2)`;
the output is a `height x width` grid of `convCell` values. -/
def convolve2D (img kernel : List (List ℚ)) : List (List ℚ) :=
  (List.range img.length).map fun (y : ℕ) =>
    (List.range (img.getD 0 []).length).map fun (x : ℕ) =>
      convCell img kernel img.length (img.getD 0 []).length kernel.length
        (kernel.length / 2) y x

/-- The 3x3 identity kernel: 1 at the center, 0 elsewhere. -/
def identityKernel : List (List ℚ) := [[0, 0, 0], [0, 1, 0], [0, 0, 0]]

/-- Convolution against the identity kernel reproduces the input pixel. -/
theorem convCell_identity (img : List (List ℚ)) (y x : ℕ)
    (hy : y < img.length) (hx : x < (img.getD 0 []).length) :
    convCell img identityKernel img.length ((img.getD 0 []).length) 3 1 y x =
      (img.getD y []).getD x 0 := by
  have hr3 : List.range 3 = [0, 1, 2] := rfl
  unfold convCell
  rw [hr3]
  simp only [List.map_cons, List.map_nil, List.sum_cons, List.sum_nil]
  have h00 : (identityKernel.getD 0 []).getD 0 0 = 0 := rfl
  have h01 : (identityKernel.getD 0 []).getD 1 0 = 0 := rfl
  have h02 : (identityKernel.getD 0 []).getD 2 0 = 0 := rfl
  have h10 : (identityKernel.getD 1 []).getD 0 0 = 0 := rfl
  have h11 : (identityKernel.getD 1 []).getD 1 0 = 1 := rfl
  have h12 : (identityKernel.getD 1 []).getD 2 0 = 0 := rfl
  have h20 : (identityKernel.getD 2 []).getD 0 0 = 0 := rfl
  have h21 : (identityKernel.getD 2 []).getD 1 0 = 0 := rfl
  have h22 : (identityKernel.getD 2 []).getD 2 0 = 0 := rfl
  rw [h00, h01, h02, h10, h11, h12, h20, h21, h22]
  simp only [mul_zero, mul_one, zero_add, add_zero]
  unfold convSample
  have hcond : 0 ≤ (y : ℤ) + ((1 : ℕ) : ℤ) - ((1 : ℕ) : ℤ) ∧
      (y : ℤ) + ((1 : ℕ) : ℤ) - ((1 : ℕ) : ℤ) < (img.length : ℤ) ∧
      0 ≤ (x : ℤ) + ((1 : ℕ) : ℤ) - ((1 : ℕ) : ℤ) ∧
      (x : ℤ) + ((1 : ℕ) : ℤ) - ((1 : ℕ) : ℤ) < ((img.getD 0 []).length : ℤ) :=
    ⟨by omega, by omega, by omega, by omega⟩
  rw [if_pos hcond]
  have hyy : ((y : ℤ) + ((1 : ℕ) : ℤ) - ((1 : ℕ) : ℤ)).toNat = y := by omega
  have hxx : ((x : ℤ) + ((1 : ℕ) : ℤ) - ((1 : ℕ) : ℤ)).toNat = x := by omega
  rw [hyy, hxx]

/-- C5: convolving any rectangular image with the 3x3 identity kernel returns
the image unchanged (out-of-bounds samples are zero-padded), and for any
kernel the output dimensions equal the input dimensions. -/
theorem C5_convolve2D_identity (img : List (List ℚ))
    (hrect : ∀ row ∈ img, row.length = (img.getD 0 []).length) :
    convolve2D img identityKernel = img ∧
    ∀ kernel : List (List ℚ),
      (convolve2D img kernel).length = img.length ∧
      ∀ row ∈ convolve2D img kernel, row.length = (img.getD 0 []).length := by
  constructor
  · apply List.ext_getElem
    · simp [convolve2D]
    · intro y hy1 hy2
      unfold convolve2D
      simp only [List.getElem_map, List.getElem_range]
      apply List.ext_getElem
      · simp only [List.length_map, List.length_range]
        exact (hrect img[y] (List.getElem_mem hy2)).symm
      · intro x hx1 hx2
        simp only [List.length_map, List.length_range] at hx1
        simp only [List.getElem_map, List.getElem_range]
        have hk3 : identityKernel.length = 3 := rfl
        have hk1 : identityKernel.length / 2 = 1 := rfl
        rw [hk1, hk3, convCell_identity img y x hy2 hx1]
        rw [List.getD_eq_getElem _ _ hy2, List.getD_eq_getElem]
  · intro kernel
    constructor
    · simp [convolve2D]
    · intro row hrow
      unfold convolve2D at hrow
      rw [List.mem_map] at hrow
      obtain ⟨y, _, hrow⟩ := hrow
      simp [← hrow]

/-- Witness for C5 at the 2x2 image `[[1,2],[3,4]]`. -/
theorem C5_convolve2D_identity_witness :
    (∀ row ∈ ([[1, 2], [3, 4]] : List (List ℚ)),
      row.length = (([[1, 2], [3, 4]] : List (List ℚ)).getD 0 []).length) ∧
    convolve2D [[1, 2], [3, 4]] identityKernel = [[1, 2], [3, 4]] := by
  refine ⟨by decide, (C5_convolve2D_identity [[1, 2], [3, 4]] ?_).1⟩
  decide

/-- Grid access `g[y][x]` with the JS out-of-bounds access modelled as 0. -/
def cellD {α : Type} [Zero α] (g : List (List α)) (y x : ℕ) : α :=
  (g.getD y []).getD x 0

/-- The two direction-selected neighbors of `nonMaxSuppression`: the four
angle bins of the source's if/else chain, defaulting to `(0, 0)` when no bin
matches (mirroring the zero-initialized `neighbor1`/`neighbor2`). -/
def nmsNeighbors (mag : List (List ℚ)) (theta : ℚ) (y x : ℕ) : ℚ × ℚ :=
  if (0 ≤ theta ∧ theta < 22.5) ∨ (157.5 ≤ theta ∧ theta ≤ 180) then
    (cellD mag y (x - 1), cellD mag y (x + 1))
  else if 22.5 ≤ theta ∧ theta < 67.5 then
    (cellD mag (y - 1) (x + 1), cellD mag (y + 1) (x - 1))
  else if 67.5 ≤ theta ∧ theta < 112.5 then
    (cellD mag (y - 1) x, cellD mag (y + 1) x)
  else if 112.5 ≤ theta ∧ theta < 157.5 then
    (cellD mag (y - 1) (x - 1), cellD mag (y + 1) (x + 1))
  else (0, 0)

/-- One interior cell of `nonMaxSuppression`:
`currentMag >= neighbor1 && currentMag >= neighbor2 ? currentMag : 0`. -/
def nmsCell (mag angle : List (List ℚ)) (y x : ℕ) : ℚ :=
  if (nmsNeighbors mag (cellD angle y x) y x).1 ≤ cellD mag y x ∧
      (nmsNeighbors mag (cellD angle y x) y x).2 ≤ cellD mag y x then
    cellD mag y x
  else 0

/-- `nonMaxSuppression(mag, angle, width, height)` from RenderUtils: the
output grid is zero-initialized with `height` rows of `width` cells and the
interior (`1 <= y < height-1`, `1 <= x < width-1`) is filled by `nmsCell`. -/
def nonMaxSuppression (mag angle : List (List ℚ)) (width height : ℕ) :
    List (List ℚ) :=
  (List.range height).map fun (y : ℕ) =>
    (List.range width).map fun (x : ℕ) =>
      if 1 ≤ y ∧ y < height - 1 ∧ 1 ≤ x ∧ x < width - 1 then
        nmsCell mag angle y x
      else 0

theorem getD_map_range {β : Type} (f : ℕ → β) (n i : ℕ) (d : β) :
    ((List.range n).map f).getD i d = if i < n then f i else d := by
  split
  · next h =>
    have hlt : i < ((List.range n).map f).length := by simpa using h
    rw [List.getD_eq_getElem _ _ hlt]
    simp
  · next h =>
    apply List.getD_eq_default
    simpa using le_of_not_lt h

/-- Cell-level description of the `nonMaxSuppression` output grid. -/
theorem cellD_nonMaxSuppression (mag angle : List (List ℚ)) (width height y x : ℕ) :
    cellD (nonMaxSuppression mag angle width height) y x =
      if y < height ∧ x < width then
        (if 1 ≤ y ∧ y < height - 1 ∧ 1 ≤ x ∧ x < width - 1 then
          nmsCell mag angle y x
        else 0)
      else 0 := by
  unfold cellD nonMaxSuppression
  rw [getD_map_range]
  by_cases hy : y < height
  · rw [if_pos hy, getD_map_range]
    by_cases hx : x < width
    · have hyx : y < height ∧ x < width := ⟨hy, hx⟩
      rw [if_pos hx, if_pos hyx]
    · rw [if_neg hx, if_neg (fun hc => hx hc.2)]
  · rw [if_neg hy, if_neg (fun hc => hy hc.1)]
    simp [List.getD]

/-- Entries of a grid with non-negative rows are non-negative, including the
out-of-bounds default. -/
theorem cellD_nonneg {mag : List (List ℚ)}
    (hnn : ∀ row ∈ mag, ∀ v ∈ row, 0 ≤ v) (y x : ℕ) : 0 ≤ cellD mag y x := by
  unfold cellD
  by_cases hy : y < mag.length
  · rw [List.getD_eq_getElem _ _ hy]
    by_cases hx : x < mag[y].length
    · rw [List.getD_eq_getElem _ _ hx]
      exact hnn _ (List.getElem_mem hy) _ (List.getElem_mem hx)
    · rw [List.getD_eq_default _ _ (le_of_not_lt hx)]
  · rw [List.getD_eq_default _ _ (le_of_not_lt hy)]
    simp [List.getD]

/-- C7: on a magnitude grid (non-negative entries, as produced by Sobel),
non-maximum suppression never amplifies: each output cell is at most the
input cell and is either the input magnitude or 0; every border cell is 0;
and an interior cell equal to both direction-selected neighbors survives
(the comparison is greater-or-equal, not strict). -/
theorem C7_nonMaxSuppression_bounds (mag angle : List (List ℚ)) (width height : ℕ)
    (hnn : ∀ row ∈ mag, ∀ v ∈ row, 0 ≤ v) :
    (∀ y x : ℕ,
      cellD (nonMaxSuppression mag angle width height) y x ≤ cellD mag y x ∧
      (cellD (nonMaxSuppression mag angle width height) y x = cellD mag y x ∨
       cellD (nonMaxSuppression mag angle width height) y x = 0)) ∧
    (∀ y x : ℕ, y < height → x < width →
      (y = 0 ∨ y = height - 1 ∨ x = 0 ∨ x = width - 1) →
      cellD (nonMaxSuppression mag angle width height) y x = 0) ∧
    (∀ y x : ℕ, 1 ≤ y → y < height - 1 → 1 ≤ x → x < width - 1 →
      (nmsNeighbors mag (cellD angle y x) y x).1 = cellD mag y x →
      (nmsNeighbors mag (cellD angle y x) y x).2 = cellD mag y x →
      cellD (nonMaxSuppression mag angle width height) y x = cellD mag y x) := by
  refine ⟨fun y x => ?_, fun y x hy hx hb => ?_, fun y x h1 h2 h3 h4 hn1 hn2 => ?_⟩
  · rw [cellD_nonMaxSuppression]
    by_cases hin : y < height ∧ x < width
    · rw [if_pos hin]
      by_cases hint : 1 ≤ y ∧ y < height - 1 ∧ 1 ≤ x ∧ x < width - 1
      · rw [if_pos hint]
        unfold nmsCell
        split
        · exact ⟨le_rfl, Or.inl rfl⟩
        · exact ⟨cellD_nonneg hnn y x, Or.inr rfl⟩
      · rw [if_neg hint]
        exact ⟨cellD_nonneg hnn y x, Or.inr rfl⟩
    · rw [if_neg hin]
      exact ⟨cellD_nonneg hnn y x, Or.inr rfl⟩
  · rw [cellD_nonMaxSuppression, if_pos ⟨hy, hx⟩, if_neg (by omega)]
  · have hy : y < height := by omega
    have hx : x < width := by omega
    rw [cellD_nonMaxSuppression, if_pos ⟨hy, hx⟩, if_pos ⟨h1, h2, h3, h4⟩]
    unfold nmsCell
    rw [if_pos ⟨le_of_eq hn1, le_of_eq hn2⟩]

/-- Witness for C7 at a concrete 3x3 magnitude grid with a zero angle grid. -/
theorem C7_nonMaxSuppression_bounds_witness :
    (∀ row ∈ ([[1, 2, 3], [4, 5, 6], [7, 8, 9]] : List (List ℚ)),
      ∀ v ∈ row, 0 ≤ v) ∧
    cellD (nonMaxSuppression [[1, 2, 3], [4, 5, 6], [7, 8, 9]]
      [[0, 0, 0], [0, 0, 0], [0, 0, 0]] 3 3) 1 1 ≤
      cellD [[1, 2, 3], [4, 5, 6], [7, 8, 9]] 1 1 ∧
    cellD (nonMaxSuppression [[1, 2, 3], [4, 5, 6], [7, 8, 9]]
      [[0, 0, 0], [0, 0, 0], [0, 0, 0]] 3 3) 0 2 = 0 := by
  refine ⟨by decide, ?_, ?_⟩
  · exact ((C7_nonMaxSuppression_bounds [[1, 2, 3], [4, 5, 6], [7, 8, 9]]
      [[0, 0, 0], [0, 0, 0], [0, 0, 0]] 3 3 (by decide)).1 1 1).1
  · exact (C7_nonMaxSuppression_bounds [[1, 2, 3], [4, 5, 6], [7, 8, 9]]
      [[0, 0, 0], [0, 0, 0], [0, 0, 0]] 3 3 (by decide)).2.1 0 2
      (by omega) (by omega) (by omega)

/-- A JSON-like value of a posted config object. -/
inductive JValue
  | null
  | num (q : ℚ)
  | bool (b : Bool)
  | str (s : String)
deriving DecidableEq

/-- A JS object posted to the config worker, as a key/value list. -/
abbrev ConfigObj := List (String × JValue)

/-- The `requiredKeys` array of `asciiConfigWorker.ts`. -/
def requiredKeys : List String :=
  ["charset", "contrastStart", "contrastEnd", "brightnessStart",
   "brightnessEnd", "colorMode", "font", "frames"]

/-- The JS `k in config` test: key presence, regardless of the value
(a `null`-valued key is present). -/
def hasKey (config : ConfigObj) (k : String) : Bool :=
  config.any (fun kv => kv.1 == k)

/-- The message posted back by the config worker: either
`{success: false, error}` or `{success: true, config}`. -/
inductive ConfigResponse
  | failure (error : String)
  | success (config : ConfigObj)
deriving DecidableEq

/-- The message listener of `asciiConfigWorker.ts`:
`valid = requiredKeys.every((k) => k in config)`; if invalid it posts a
failure and returns, otherwise it posts `{success: true, config}` with the
config object it received. -/
def asciiConfigWorker (config : ConfigObj) : ConfigResponse :=
  if requiredKeys.all (fun k => hasKey config k) then
    ConfigResponse.success config
  else
    ConfigResponse.failure ("Invalid config schema.")

/-- A config carrying all required fields plus a `null` optional numeric
field `gamma`. -/
def sampleConfig : ConfigObj :=
  [("charset", JValue.str ("@%#")), ("contrastStart", JValue.num 0),
   ("contrastEnd", JValue.num 50), ("brightnessStart", JValue.num 0),
   ("brightnessEnd", JValue.num 10), ("colorMode", JValue.bool true),
   ("font", JValue.str ("monospace")), ("frames", JValue.num 12),
   ("gamma", JValue.null)]

/-- A config missing required fields. -/
def badConfig : ConfigObj := [("charset", JValue.str ("@"))]

/-- C3 counterexample: on a config containing every required field plus a
`null` optional numeric sub-field `gamma`, the worker succeeds and forwards
the config object unchanged: the `null` is still there and has not been
replaced by 0, refuting the claimed normalization. -/
theorem C3_counterexample_no_normalization :
    asciiConfigWorker sampleConfig = ConfigResponse.success sampleConfig ∧
    ("gamma", JValue.null) ∈ sampleConfig ∧
    ("gamma", JValue.num 0) ∉ sampleConfig := by
  decide

/-- C3 (amended): the config worker signals failure iff some required field
is absent, and on success it forwards the received config object exactly as
is, performing no normalization. -/
theorem C3_configWorker_validation (config : ConfigObj) :
    (asciiConfigWorker config = ConfigResponse.failure ("Invalid config schema.") ↔
      ∃ k ∈ requiredKeys, hasKey config k = false) ∧
    ((∀ k ∈ requiredKeys, hasKey config k = true) →
      asciiConfigWorker config = ConfigResponse.success config) := by
  constructor
  · unfold asciiConfigWorker
    by_cases hall : requiredKeys.all (fun k => hasKey config k)
    · rw [if_pos hall]
      simp only [List.all_eq_true] at hall
      constructor
      · intro h
        exact absurd h (by simp)
      · rintro ⟨k, hk, hfalse⟩
        rw [hall k hk] at hfalse
        exact absurd hfalse (by simp)
    · rw [if_neg hall]
      simp only [List.all_eq_true] at hall
      push_neg at hall
      obtain ⟨k, hk, hfalse⟩ := hall
      exact ⟨fun _ => ⟨k, hk, by simpa using hfalse⟩, fun _ => rfl⟩
  · intro hall
    unfold asciiConfigWorker
    rw [if_pos (by simpa [List.all_eq_true] using hall)]

/-- Witness for C3 on the sample config (success, forwarded unchanged) and on
a config missing `contrastStart` (failure). -/
theorem C3_configWorker_validation_witness :
    asciiConfigWorker sampleConfig = ConfigResponse.success sampleConfig ∧
    asciiConfigWorker badConfig = ConfigResponse.failure ("Invalid config schema.") := by
  constructor
  · exact (C3_configWorker_validation sampleConfig).2 (by decide)
  · exact (C3_configWorker_validation badConfig).1.mpr
      ⟨"contrastStart", by decide, by decide⟩

/-- `luminance(r, g, b, gamma)` from RenderUtils:
`lum = 0.2126*r + 0.7152*g + 0.0722*b`, returned as is when `gamma === 1`
and as `255 * Math.pow(lum / 255, gamma)` otherwise (`Math.pow` modelled by
`Real.rpow`). -/
noncomputable def luminance (r g b gamma : ℝ) : ℝ :=
  if gamma = 1 then 0.2126 * r + 0.7152 * g + 0.0722 * b
  else 255 * (((0.2126 * r + 0.7152 * g + 0.0722 * b) / 255) ^ gamma)

/-- `rgbToHex(r, g, b)` from RenderUtils:
`"#" + ((1 << 24) + (r << 16) + (g << 8) + b).toString(16).slice(1)`. -/
def rgbToHex (r g b : ℕ) : String :=
  "#" ++ String.mk ((Nat.toDigits 16 ((1 <<< 24) + (r <<< 16) + (g <<< 8) + b)).drop 1)

/-- The `config` field of a frame request (`AsciiWorkerConfig`); `gamma` and
`colorsEnabled` are optional and defaulted (`gamma = 1`,
`colorsEnabled = false`) by the worker's destructuring. -/
structure AsciiWorkerConfig where
  cols : ℕ
  rows : ℕ
  charset : List Char
  contrast : ℝ
  brightness : ℝ
  gamma : Option ℝ
  colorsEnabled : Option Bool

/-- The `AsciiFrame` result message of the worker. -/
structure AsciiFrame where
  index : ℕ
  text : List (List Char)
  colors : Option (List (List String))
  timestamp : ℝ

/-- A message posted by the ASCII worker: a progress event, the final frame,
or an error event. -/
inductive WorkerMsg
  | progress (value : ℝ)
  | frame (f : AsciiFrame)
  | error (message : String)

/-- The per-cell luminance pipeline of the worker's single-pass loop:
`idx = (y * cols + x) * 4`, RGB read from the scaled pixel data,
`lum = luminance(r, g, b, gamma)` then
`clamp(factor * (lum - 128) + 128 + brightness, 0, 255)` with the worker's
precomputed contrast `factor`. -/
noncomputable def cellLum (data : List ℕ) (cfg : AsciiWorkerConfig) (y x : ℕ) : ℝ :=
  clamp ((259 * (cfg.contrast + 255)) / (255 * (259 - cfg.contrast)) *
      (luminance ((data.getD ((y * cfg.cols + x) * 4) 0 : ℕ) : ℝ)
        ((data.getD ((y * cfg.cols + x) * 4 + 1) 0 : ℕ) : ℝ)
        ((data.getD ((y * cfg.cols + x) * 4 + 2) 0 : ℕ) : ℝ)
        (cfg.gamma.getD 1) - 128) + 128 + cfg.brightness) 0 255

/-- The character written into `frameText[y][x]`. -/
noncomputable def cellChar (data : List ℕ) (cfg : AsciiWorkerConfig) (y x : ℕ) : Char :=
  mapToChar (cellLum data cfg y x) cfg.charset

/-- The color written into `frameColors[y][x]` when colors are enabled. -/
def cellColor (data : List ℕ) (cfg : AsciiWorkerConfig) (y x : ℕ) : String :=
  rgbToHex (data.getD ((y * cfg.cols + x) * 4) 0)
    (data.getD ((y * cfg.cols + x) * 4 + 1) 0)
    (data.getD ((y * cfg.cols + x) * 4 + 2) 0)

/-- The final `AsciiFrame` posted by the worker: a rows x cols character grid,
an optional rows x cols color grid, the request's frame index and a
completion timestamp (`performance.now()`, passed in as a parameter). -/
noncomputable def buildFrame (data : List ℕ) (cfg : AsciiWorkerConfig)
    (frameIndex : ℕ) (timestamp : ℝ) : AsciiFrame :=
  ⟨frameIndex,
    (List.range cfg.rows).map fun (y : ℕ) =>
      (List.range cfg.cols).map fun (x : ℕ) => cellChar data cfg y x,
    if cfg.colorsEnabled.getD false then
      some ((List.range cfg.rows).map fun (y : ℕ) =>
        (List.range cfg.cols).map fun (x : ℕ) => cellColor data cfg y x)
    else none,
    timestamp⟩

/-- The rows after which the worker posts a progress message:
`y % Math.max(1, Math.floor(rows / 10)) === 0`. -/
def progressSteps (rows : ℕ) : List ℕ :=
  (List.range rows).filter (fun y => y % max 1 (rows / 10) = 0)

/-- The ordered message sequence of a successful run: one
`{type: "progress", value: y / rows}` per passing row, in row order, followed
by the final frame. -/
noncomputable def processOk (data : List ℕ) (cfg : AsciiWorkerConfig)
    (frameIndex : ℕ) (timestamp : ℝ) : List WorkerMsg :=
  ((progressSteps cfg.rows).map fun (y : ℕ) =>
    WorkerMsg.progress ((y : ℝ) / (cfg.rows : ℝ)))
    ++ [WorkerMsg.frame (buildFrame data cfg frameIndex timestamp)]

/-- The `self.onmessage` handler of the ASCII worker for a `process` request,
as a function from the outcome of the platform `scaleImage` call (the fallible
step of the try block) to the ordered list of posted messages: on failure the
catch block posts exactly one error message. -/
noncomputable def asciiWorkerMessages (scaled : Except String (List ℕ))
    (cfg : AsciiWorkerConfig) (frameIndex : ℕ) (timestamp : ℝ) : List WorkerMsg :=
  match scaled with
  | Except.error e => [WorkerMsg.error e]
  | Except.ok data => processOk data cfg frameIndex timestamp

/-- The progress values of a message sequence, in emission order. -/
def progressValues (msgs : List WorkerMsg) : List ℝ :=
  msgs.filterMap fun m =>
    match m with
    | WorkerMsg.progress v => some v
    | _ => none

def isError : WorkerMsg → Bool
  | WorkerMsg.error _ => true
  | _ => false

def isFrame : WorkerMsg → Bool
  | WorkerMsg.frame _ => true
  | _ => false

theorem progressValues_append (a b : List WorkerMsg) :
    progressValues (a ++ b) = progressValues a ++ progressValues b := by
  unfold progressValues
  rw [List.filterMap_append]

theorem progressValues_map_progress (f : ℕ → ℝ) (l : List ℕ) :
    progressValues (l.map fun (y : ℕ) => WorkerMsg.progress (f y)) = l.map f := by
  induction l with
  | nil => rfl
  | cons a t ih =>
    unfold progressValues at ih ⊢
    rw [List.map_cons, List.map_cons, List.filterMap_cons]
    simp only []
    rw [ih]

theorem progressValues_frame (f : AsciiFrame) :
    progressValues [WorkerMsg.frame f] = [] := rfl

/-- The progress values of a successful run are the passing rows divided by
the row count. -/
theorem progressValues_ok (data : List ℕ) (cfg : AsciiWorkerConfig)
    (frameIndex : ℕ) (timestamp : ℝ) :
    progressValues (asciiWorkerMessages (Except.ok data) cfg frameIndex timestamp) =
      (progressSteps cfg.rows).map fun (y : ℕ) => (y : ℝ) / (cfg.rows : ℝ) := by
  unfold asciiWorkerMessages processOk
  rw [progressValues_append, progressValues_map_progress, progressValues_frame,
    List.append_nil]

/-- A demo frame request: 1 column, 2 rows. -/
noncomputable def demoConfig : AsciiWorkerConfig :=
  ⟨1, 2, ['#', '.'], 0, 0, none, none⟩

/-- Demo RGBA pixel data for a 1x2 grid. -/
def demoData : List ℕ := [10, 20, 30, 255, 40, 50, 60, 255]

/-- C4 counterexample: for a 2-row frame the worker posts progress values
0 and 1/2, so the final progress value emitted before completion is 1/2,
not 1.0. -/
theorem C4_counterexample_final_progress :
    (progressValues (asciiWorkerMessages (Except.ok demoData) demoConfig 0 0)).getLast? =
      some ((1 : ℝ) / 2) ∧ ((1 : ℝ) / 2) ≠ (1 : ℝ) := by
  constructor
  · rw [progressValues_ok]
    have hrows : demoConfig.rows = 2 := rfl
    rw [hrows]
    have hsteps : progressSteps 2 = [0, 1] := by decide
    rw [hsteps]
    simp
  · norm_num

/-- C4 (amended): within one frame the emitted progress values are
non-decreasing (in fact strictly increasing) and lie in [0,1); in particular
the final progress value emitted before completion is strictly less than 1.0
(completion itself is signaled by the frame message, not by a progress
value of 1.0). -/
theorem C4_progress_monotone (data : List ℕ) (cfg : AsciiWorkerConfig)
    (frameIndex : ℕ) (timestamp : ℝ) :
    (progressValues (asciiWorkerMessages (Except.ok data) cfg frameIndex
      timestamp)).Pairwise (· ≤ ·) ∧
    (∀ v ∈ progressValues (asciiWorkerMessages (Except.ok data) cfg frameIndex
      timestamp), 0 ≤ v ∧ v < 1) ∧
    (∀ v : ℝ, (progressValues (asciiWorkerMessages (Except.ok data) cfg
      frameIndex timestamp)).getLast? = some v → v < 1) := by
  rw [progressValues_ok]
  have hmem : ∀ v ∈ (progressSteps cfg.rows).map
      fun (y : ℕ) => (y : ℝ) / (cfg.rows : ℝ), 0 ≤ v ∧ v < 1 := by
    intro v hv
    rw [List.mem_map] at hv
    obtain ⟨y, hy, rfl⟩ := hv
    unfold progressSteps at hy
    have hyr : y ∈ List.range cfg.rows := List.mem_of_mem_filter hy
    rw [List.mem_range] at hyr
    have hposn : 0 < cfg.rows := by omega
    have hpos : (0 : ℝ) < (cfg.rows : ℝ) := by exact_mod_cast hposn
    constructor
    · exact div_nonneg (Nat.cast_nonneg y) (Nat.cast_nonneg cfg.rows)
    · rw [div_lt_one hpos]
      exact_mod_cast hyr
  refine ⟨?_, hmem, fun v hv => (hmem v (List.mem_of_mem_getLast? hv)).2⟩
  rw [List.pairwise_map]
  have hrange : (progressSteps cfg.rows).Pairwise (· < ·) := by
    unfold progressSteps
    exact List.Pairwise.sublist (List.filter_sublist _) (List.pairwise_lt_range _)
  apply hrange.imp
  intro a b hab
  exact div_le_div_of_nonneg_right (by exact_mod_cast hab.le) (Nat.cast_nonneg _)

/-- Witness for C4 on the demo request: monotone progress, and the emitted
value 1/2 is in [0,1). -/
theorem C4_progress_monotone_witness :
    (progressValues (asciiWorkerMessages (Except.ok demoData) demoConfig 0
      0)).Pairwise (· ≤ ·) ∧
    (0 ≤ ((1 : ℝ) / 2) ∧ ((1 : ℝ) / 2) < 1) := by
  refine ⟨(C4_progress_monotone demoData demoConfig 0 0).1, ?_⟩
  apply (C4_progress_monotone demoData demoConfig 0 0).2.1
  rw [progressValues_ok]
  have hrows : demoConfig.rows = 2 := rfl
  rw [hrows]
  have hsteps : progressSteps 2 = [0, 1] := by decide
  rw [hsteps]
  simp

/-- C9: when the fallible step of the frame assembly throws (the scaled
pixel data is an error), the worker posts exactly one message, an error
event carrying the message text, and no frame (partial or complete) is
emitted. -/
theorem C9_error_no_frame (e : String) (cfg : AsciiWorkerConfig)
    (frameIndex : ℕ) (timestamp : ℝ) :
    asciiWorkerMessages (Except.error e) cfg frameIndex timestamp =
      [WorkerMsg.error e] ∧
    (asciiWorkerMessages (Except.error e) cfg frameIndex timestamp).countP
      isError = 1 ∧
    ∀ m ∈ asciiWorkerMessages (Except.error e) cfg frameIndex timestamp,
      isFrame m = false := by
  refine ⟨rfl, rfl, ?_⟩
  intro m hm
  have hm2 : m = WorkerMsg.error e := List.mem_singleton.mp hm
  rw [hm2]
  rfl

/-- Witness for C9 at a concrete failing request. -/
theorem C9_error_no_frame_witness :
    asciiWorkerMessages (Except.error ("Failed to read image")) demoConfig 0 0 =
      [WorkerMsg.error ("Failed to read image")] ∧
    (asciiWorkerMessages (Except.error ("Failed to read image")) demoConfig 0
      0).countP isError = 1 := by
  exact ⟨(C9_error_no_frame ("Failed to read image") demoConfig 0 0).1,
    (C9_error_no_frame ("Failed to read image") demoConfig 0 0).2.1⟩

/-- One pre-normalization Gaussian weight:
`Math.exp(-(x*x + y*y) / (2*sigma*sigma))` at offsets `x = i - half`,
`y = j - half` for row/column indices `i, j` in `[0, 2*half]`. -/
noncomputable def gaussianRaw (sigma : ℝ) (half j i : ℕ) : ℝ :=
  Real.exp (-((((i : ℝ) - (half : ℝ)) * ((i : ℝ) - (half : ℝ))) +
      (((j : ℝ) - (half : ℝ)) * ((j : ℝ) - (half : ℝ)))) / (2 * sigma * sigma))

/-- The accumulated `sum` of all pre-normalization weights of the
`(2*half+1)`-sized grid built by `gaussianKernel2D`. -/
noncomputable def gaussianSum (sigma : ℝ) (kernelSize : ℕ) : ℝ :=
  ((List.range (2 * (kernelSize / 2) + 1)).map fun (j : ℕ) =>
    ((List.range (2 * (kernelSize / 2) + 1)).map fun (i : ℕ) =>
      gaussianRaw sigma (kernelSize / 2) j i).sum).sum

/-- `gaussianKernel2D(sigma, kernelSize)` from RenderUtils: the raw grid has
`2*half+1` rows and columns (`half = floor(kernelSize/2)`); the normalization
loop divides the entries at indices below `kernelSize` by the total sum
(for odd `kernelSize` that is every entry, since `2*half+1 = kernelSize`). -/
noncomputable def gaussianKernel2D (sigma : ℝ) (kernelSize : ℕ) : List (List ℝ) :=
  (List.range (2 * (kernelSize / 2) + 1)).map fun (j : ℕ) =>
    (List.range (2 * (kernelSize / 2) + 1)).map fun (i : ℕ) =>
      if j < kernelSize ∧ i < kernelSize then
        gaussianRaw sigma (kernelSize / 2) j i / gaussianSum sigma kernelSize
      else gaussianRaw sigma (kernelSize / 2) j i

/-- The sum of all weights of a kernel grid, row-major like the JS loops. -/
noncomputable def sumGrid (g : List (List ℝ)) : ℝ :=
  (g.map List.sum).sum

theorem list_sum_div_map {β : Type} (f : β → ℝ) (c : ℝ) (l : List β) :
    (l.map fun v => f v / c).sum = (l.map f).sum / c := by
  induction l with
  | nil => simp
  | cons a t ih => simp [ih, add_div]

/-- The pre-normalization weight sum is positive: every exponential is
positive and the grid is non-empty. -/
theorem gaussianSum_pos (sigma : ℝ) (kernelSize : ℕ) :
    0 < gaussianSum sigma kernelSize := by
  unfold gaussianSum
  apply List.sum_pos
  · intro rowSum hrow
    rw [List.mem_map] at hrow
    obtain ⟨j, _, rfl⟩ := hrow
    apply List.sum_pos
    · intro v hv
      rw [List.mem_map] at hv
      obtain ⟨i, _, rfl⟩ := hv
      exact Real.exp_pos _
    · simp
  · simp

/-- C8: for positive sigma and odd kernel size, the weights of
`gaussianKernel2D` sum to 1 within the 1e-6 tolerance (in the real-number
model they sum to exactly 1, since every raw weight is divided by the raw
total). -/
theorem C8_gaussianKernel2D_normalized (sigma : ℝ) (kernelSize : ℕ)
    (hsigma : 0 < sigma) (hodd : Odd kernelSize) :
    |sumGrid (gaussianKernel2D sigma kernelSize) - 1| ≤ 1 / 1000000 := by
  obtain ⟨m, hm⟩ := hodd
  have hm2 : kernelSize = 2 * m + 1 := by omega
  subst hm2
  have hhalf : (2 * m + 1) / 2 = m := by omega
  have hS : 0 < gaussianSum sigma (2 * m + 1) := gaussianSum_pos _ _
  have hker : gaussianKernel2D sigma (2 * m + 1) =
      (List.range (2 * m + 1)).map fun (j : ℕ) =>
        (List.range (2 * m + 1)).map fun (i : ℕ) =>
          gaussianRaw sigma m j i / gaussianSum sigma (2 * m + 1) := by
    unfold gaussianKernel2D
    rw [hhalf]
    apply List.map_congr_left
    intro j hj
    apply List.map_congr_left
    intro i hi
    rw [List.mem_range] at hj hi
    rw [if_pos ⟨hj, hi⟩]
  rw [hker]
  unfold sumGrid
  rw [List.map_map]
  have hrows : ((List.range (2 * m + 1)).map
      (List.sum ∘ fun (j : ℕ) => (List.range (2 * m + 1)).map fun (i : ℕ) =>
        gaussianRaw sigma m j i / gaussianSum sigma (2 * m + 1))) =
      (List.range (2 * m + 1)).map fun (j : ℕ) =>
        (((List.range (2 * m + 1)).map fun (i : ℕ) =>
          gaussianRaw sigma m j i).sum) / gaussianSum sigma (2 * m + 1) := by
    apply List.map_congr_left
    intro j _
    simp only [Function.comp_apply]
    exact list_sum_div_map _ _ _
  rw [hrows]
  rw [list_sum_div_map (fun (j : ℕ) => ((List.range (2 * m + 1)).map fun (i : ℕ) =>
    gaussianRaw sigma m j i).sum) (gaussianSum sigma (2 * m + 1)) (List.range (2 * m + 1))]
  have hsum : (((List.range (2 * m + 1)).map fun (j : ℕ) =>
      ((List.range (2 * m + 1)).map fun (i : ℕ) =>
        gaussianRaw sigma m j i).sum).sum) = gaussianSum sigma (2 * m + 1) := by
    unfold gaussianSum
    rw [hhalf]
  rw [hsum, div_self (ne_of_gt hS)]
  norm_num

/-- Witness for C8 at sigma = 1, kernel size 3. -/
theorem C8_gaussianKernel2D_normalized_witness :
    (0 : ℝ) < 1 ∧ Odd 3 ∧
    |sumGrid (gaussianKernel2D 1 3) - 1| ≤ 1 / 1000000 := by
  refine ⟨by norm_num, by decide, ?_⟩
  exact C8_gaussianKernel2D_normalized 1 3 (by norm_num) (by decide)

/-- JS `Math.atan2(y, x)`, modelled as the argument of the complex number
`x + y*i`; its range is `(-pi, pi]`, with `atan2(0, x) = pi` for `x < 0` and
`atan2(0, 0) = 0`, exactly as in JS. -/
noncomputable def atan2 (y x : ℝ) : ℝ :=
  Complex.arg ⟨x, y⟩

/-- The fixed horizontal Sobel kernel `kernelX` of `applySobel2D`. -/
noncomputable def kernelX : List (List ℝ) :=
  [[-1, 0, 1], [-2, 0, 2], [-1, 0, 1]]

/-- The fixed vertical Sobel kernel `kernelY` of `applySobel2D`. -/
noncomputable def kernelY : List (List ℝ) :=
  [[-1, -2, -1], [0, 0, 0], [1, 2, 1]]

/-- `Gx` at `(y, x)`: `img[y+ky][x+kx] * kernelX[ky+1][kx+1]` summed over
`ky, kx` in `[-1, 1]`, reindexed to `[0, 2]`; evaluated by `applySobel2D`
only on interior cells, where every index stays in range. -/
noncomputable def sobelGx (img : List (List ℝ)) (y x : ℕ) : ℝ :=
  ((List.range 3).map fun (ky : ℕ) =>
    ((List.range 3).map fun (kx : ℕ) =>
      cellD img (y + ky - 1) (x + kx - 1) * cellD kernelX ky kx).sum).sum

/-- `Gy` at `(y, x)`, as `sobelGx` but against `kernelY`. -/
noncomputable def sobelGy (img : List (List ℝ)) (y x : ℕ) : ℝ :=
  ((List.range 3).map fun (ky : ℕ) =>
    ((List.range 3).map fun (kx : ℕ) =>
      cellD img (y + ky - 1) (x + kx - 1) * cellD kernelY ky kx).sum).sum

/-- `mag[y][x] = Math.sqrt(Gx*Gx + Gy*Gy)`. -/
noncomputable def sobelMag (img : List (List ℝ)) (y x : ℕ) : ℝ :=
  Real.sqrt (sobelGx img y x * sobelGx img y x + sobelGy img y x * sobelGy img y x)

/-- `theta = Math.atan2(Gy, Gx) * 180 / Math.PI`. -/
noncomputable def sobelTheta (img : List (List ℝ)) (y x : ℕ) : ℝ :=
  atan2 (sobelGy img y x) (sobelGx img y x) * 180 / Real.pi

/-- `angle[y][x]`: `theta`, with 180 added when `theta < 0`. -/
noncomputable def sobelAngle (img : List (List ℝ)) (y x : ℕ) : ℝ :=
  if sobelTheta img y x < 0 then sobelTheta img y x + 180 else sobelTheta img y x

/-- `applySobel2D(img, width, height)` from RenderUtils: magnitude and angle
grids of `height` rows and `width` columns, zero-initialized, with the
interior (`1 <= y < height-1`, `1 <= x < width-1`) filled from the Sobel
gradients. -/
noncomputable def applySobel2D (img : List (List ℝ)) (width height : ℕ) :
    List (List ℝ) × List (List ℝ) :=
  ((List.range height).map fun (y : ℕ) =>
    (List.range width).map fun (x : ℕ) =>
      if 1 ≤ y ∧ y < height - 1 ∧ 1 ≤ x ∧ x < width - 1 then
        sobelMag img y x
      else 0,
   (List.range height).map fun (y : ℕ) =>
    (List.range width).map fun (x : ℕ) =>
      if 1 ≤ y ∧ y < height - 1 ∧ 1 ≤ x ∧ x < width - 1 then
        sobelAngle img y x
      else 0)

/-- `theta` lies in `(-180, 180]`, since `Complex.arg` lies in
`(-pi, pi]`. -/
theorem sobelTheta_mem (img : List (List ℝ)) (y x : ℕ) :
    -180 < sobelTheta img y x ∧ sobelTheta img y x ≤ 180 := by
  unfold sobelTheta atan2
  have hpi : (0 : ℝ) < Real.pi := Real.pi_pos
  have hle : Complex.arg ⟨sobelGx img y x, sobelGy img y x⟩ ≤ Real.pi :=
    Complex.arg_le_pi _
  have hgt : -Real.pi < Complex.arg ⟨sobelGx img y x, sobelGy img y x⟩ :=
    Complex.neg_pi_lt_arg _
  constructor
  · rw [lt_div_iff₀ hpi]
    nlinarith
  · rw [div_le_iff₀ hpi]
    nlinarith

/-- The folded angle lies in the closed interval `[0, 180]`. -/
theorem sobelAngle_mem (img : List (List ℝ)) (y x : ℕ) :
    0 ≤ sobelAngle img y x ∧ sobelAngle img y x ≤ 180 := by
  obtain ⟨hgt, hle⟩ := sobelTheta_mem img y x
  unfold sobelAngle
  split
  · next h => exact ⟨by linarith, by linarith⟩
  · next h => exact ⟨le_of_not_lt h, hle⟩

/-- Cell-level description of the angle grid of `applySobel2D`. -/
theorem cellD_sobel_angle (img : List (List ℝ)) (width height y x : ℕ) :
    cellD (applySobel2D img width height).2 y x =
      if y < height ∧ x < width then
        (if 1 ≤ y ∧ y < height - 1 ∧ 1 ≤ x ∧ x < width - 1 then
          sobelAngle img y x
        else 0)
      else 0 := by
  have h2 : (applySobel2D img width height).2 =
      (List.range height).map fun (y : ℕ) =>
        (List.range width).map fun (x : ℕ) =>
          if 1 ≤ y ∧ y < height - 1 ∧ 1 ≤ x ∧ x < width - 1 then
            sobelAngle img y x
          else 0 := rfl
  rw [h2]
  unfold cellD
  rw [getD_map_range]
  by_cases hy : y < height
  · rw [if_pos hy, getD_map_range]
    by_cases hx : x < width
    · have hyx : y < height ∧ x < width := ⟨hy, hx⟩
      rw [if_pos hx, if_pos hyx]
    · rw [if_neg hx, if_neg (fun hc => hx hc.2)]
  · rw [if_neg hy, if_neg (fun hc => hy hc.1)]
    simp [List.getD]

/-- C2 (amended): every angle value of `applySobel2D` lies in the closed
interval `[0, 180]`: the angle is `atan2(Gy, Gx)` in degrees with 180 added
when negative, which lands in `(0, 180)` for negative `theta` and stays in
`[0, 180]` otherwise, and border/out-of-range cells are 0. The value 180 is
attained (when `Gy = 0` and `Gx < 0`), so the interval cannot be shrunk to
`[0, 180)`. -/
theorem C2_sobel_angle_range (img : List (List ℝ)) (width height y x : ℕ) :
    0 ≤ cellD (applySobel2D img width height).2 y x ∧
    cellD (applySobel2D img width height).2 y x ≤ 180 := by
  rw [cellD_sobel_angle]
  by_cases hyx : y < height ∧ x < width
  · rw [if_pos hyx]
    by_cases hint : 1 ≤ y ∧ y < height - 1 ∧ 1 ≤ x ∧ x < width - 1
    · rw [if_pos hint]
      exact sobelAngle_mem img y x
    · rw [if_neg hint]
      norm_num
  · rw [if_neg hyx]
    norm_num

/-- C2 counterexample: on the 3x3 image with a constant bright left column,
the interior gradient has `Gy = 0` and `Gx = -4`, so
`theta = atan2(0, -4) * 180 / pi = 180`; it is not negative, nothing is
added, and the emitted angle is exactly 180 — not strictly less than 180. -/
theorem C2_counterexample_angle_180 :
    cellD (applySobel2D [[1, 0, 0], [1, 0, 0], [1, 0, 0]] 3 3).2 1 1 = 180 ∧
    ¬ (cellD (applySobel2D [[1, 0, 0], [1, 0, 0], [1, 0, 0]] 3 3).2 1 1 < 180) := by
  have hgx : sobelGx [[1, 0, 0], [1, 0, 0], [1, 0, 0]] 1 1 = -4 := by
    have hr3 : List.range 3 = [0, 1, 2] := rfl
    unfold sobelGx
    rw [hr3]
    simp [cellD, kernelX, List.getD]
    norm_num
  have hgy : sobelGy [[1, 0, 0], [1, 0, 0], [1, 0, 0]] 1 1 = 0 := by
    have hr3 : List.range 3 = [0, 1, 2] := rfl
    unfold sobelGy
    rw [hr3]
    simp [cellD, kernelY, List.getD]
  have harg : atan2 0 (-4) = Real.pi := by
    unfold atan2
    have hmk : (⟨(-4 : ℝ), (0 : ℝ)⟩ : ℂ) = (((-4 : ℝ)) : ℂ) := by
      apply Complex.ext <;> simp
    rw [hmk]
    exact Complex.arg_ofReal_of_neg (by norm_num)
  have htheta : sobelTheta [[1, 0, 0], [1, 0, 0], [1, 0, 0]] 1 1 = 180 := by
    unfold sobelTheta
    rw [hgx, hgy, harg, mul_comm, mul_div_assoc, div_self Real.pi_ne_zero, mul_one]
  have hangle : sobelAngle [[1, 0, 0], [1, 0, 0], [1, 0, 0]] 1 1 = 180 := by
    unfold sobelAngle
    rw [htheta]
    rw [if_neg (by norm_num)]
  have hcell : cellD (applySobel2D [[1, 0, 0], [1, 0, 0], [1, 0, 0]] 3 3).2 1 1 =
      sobelAngle [[1, 0, 0], [1, 0, 0], [1, 0, 0]] 1 1 := by
    rw [cellD_sobel_angle]
    rw [if_pos (by omega : (1 : ℕ) < 3 ∧ (1 : ℕ) < 3)]
    rw [if_pos (by omega : 1 ≤ 1 ∧ 1 < 3 - 1 ∧ 1 ≤ 1 ∧ 1 < 3 - 1)]
  rw [hcell, hangle]
  norm_num

end Astrii
